import Mathlib

/-!
Verification development for the multiDDS data-loading and batching pipeline
(`fairseq/data/data_utils.py` and `fairseq/tasks/multilingual_translation.py`).

Python values that flow through the size-filtering code (sizes and size
limits) are modelled by the closed inductive `PyVal`; fallible Python
operations (attribute errors, type errors, raised exceptions) are modelled
with `Except PyErr`.  Comparisons between container values (tuple vs tuple)
never occur on the inputs exercised here and are modelled as `typeError`.
-/

namespace MultiDDS

/-- Python exception classes that the modelled code can raise. -/
inductive PyErr where
  | attributeError
  | typeError
  | indexError
  | assertionError
  | sizeException
deriving DecidableEq, Repr

/-- Model of the Python values used as sizes and size limits: `None`,
ints, strings, tuples/lists, and (ordered) dicts. -/
inductive PyVal where
  | none
  | int (n : Int)
  | str (s : String)
  | tup (xs : List PyVal)
  | dict (xs : List (String × PyVal))

/-- Python `is None` test. -/
def PyVal.isNone : PyVal → Bool
  | PyVal.none => true
  | _ => false

/-- Python `a <= b` on the values reachable in the filtering code:
defined on int/int and str/str, a `TypeError` otherwise (in particular
`None <= x`, `x <= None` and container comparisons). -/
def pyLe : PyVal → PyVal → Except PyErr Bool
  | PyVal.int a, PyVal.int b => Except.ok (decide (a ≤ b))
  | PyVal.str a, PyVal.str b => Except.ok (decide (a ≤ b))
  | _, _ => Except.error PyErr.typeError

/-- Python `isinstance(v, Iterable)`: tuples, dicts and strings are
iterable; ints and `None` are not. -/
def pyIterable : PyVal → Bool
  | PyVal.tup _ => true
  | PyVal.dict _ => true
  | PyVal.str _ => true
  | _ => false

/-- Python iteration over a value: a tuple yields its elements, a dict
yields its keys, a string yields its characters; iterating an int or
`None` raises `TypeError`. -/
def pyIter : PyVal → Except PyErr (List PyVal)
  | PyVal.tup xs => Except.ok xs
  | PyVal.dict xs => Except.ok (xs.map (fun kv => PyVal.str kv.1))
  | PyVal.str s => Except.ok (s.data.map (fun c => PyVal.str (String.mk [c])))
  | _ => Except.error PyErr.typeError

/-- First-match association lookup, the semantics of `d[key]` for the
modelled dicts. -/
def lookupStr (k : String) : List (String × PyVal) → Option PyVal
  | [] => Option.none
  | (k', v) :: rest => if k' = k then Option.some v else lookupStr k rest

/-- Python `all(a is None or b is None or a <= b for a, b in zip(as, bs))`:
zip stops at the shorter list, `all` short-circuits on the first `False`,
and the `None` guards are checked before the comparison. -/
def zipGuardAll : List PyVal → List PyVal → Except PyErr Bool
  | [], _ => Except.ok true
  | _, [] => Except.ok true
  | a :: as_, b :: bs =>
    if a.isNone || b.isNone then zipGuardAll as_ bs
    else
      match pyLe a b with
      | Except.error e => Except.error e
      | Except.ok r => if r then zipGuardAll as_ bs else Except.ok false

/-- Python `all(a <= b for b in bs)` with no `None` guard (the scalar-size
vs tuple-limit branch of `check_size`). -/
def allLeScalar (a : PyVal) : List PyVal → Except PyErr Bool
  | [] => Except.ok true
  | b :: bs =>
    match pyLe a b with
    | Except.error e => Except.error e
    | Except.ok r => if r then allLeScalar a bs else Except.ok false

/-- The dict-limit vs dict-size branch of `check_size`: iterate the limit
entries whose key also occurs in the size dict (the key intersection) and
require `zipGuardAll` of the two values for every such key.  The Python
code iterates a hash set, whose order is irrelevant to the boolean result. -/
def checkDictAll (xs : List (String × PyVal)) : List (String × PyVal) → Except PyErr Bool
  | [] => Except.ok true
  | (k, bv) :: rest =>
    match lookupStr k xs with
    | Option.none => checkDictAll xs rest
    | Option.some av =>
      match pyIter av with
      | Except.error e => Except.error e
      | Except.ok as_ =>
        match pyIter bv with
        | Except.error e => Except.error e
        | Except.ok bs =>
          match zipGuardAll as_ bs with
          | Except.error e => Except.error e
          | Except.ok r => if r then checkDictAll xs rest else Except.ok false

/-- The `check_size` closure of `_filter_by_size_dynamic`
(`fairseq/data/data_utils.py` lines 169-197), branch by branch:

* scalar `max_positions`: a scalar size compares directly; a non-scalar
  size has `list(s.values())[0]` compared to the limit, which is an
  `AttributeError` unless the size is a dict (and an `IndexError` on an
  empty dict);
* dict `max_positions`: the size must be a dict (`assert`), and every key
  in the intersection must pass the zipped `None`-guarded comparison;
* otherwise (tuple limit and friends): a dict size against a tuple limit
  zips the dict values with the limit; a non-iterable (scalar) size must
  be `<=` every limit entry with no `None` guard; an iterable size is
  zipped with the limit under the `None` guard. -/
def check_size (size_fn : Nat → PyVal) (max_positions : PyVal) (idx : Nat) : Except PyErr Bool :=
  match max_positions with
  | PyVal.int m =>
    match size_fn idx with
    | PyVal.int n => Except.ok (decide (n ≤ m))
    | PyVal.dict [] => Except.error PyErr.indexError
    | PyVal.dict ((_, v) :: _) => pyLe v (PyVal.int m)
    | _ => Except.error PyErr.attributeError
  | PyVal.dict mp =>
    match size_fn idx with
    | PyVal.dict xs => checkDictAll xs mp
    | _ => Except.error PyErr.assertionError
  | mp =>
    match size_fn idx, mp with
    | PyVal.dict xs, PyVal.tup bs => zipGuardAll (xs.map (fun kv => kv.2)) bs
    | s, _ =>
      if pyIterable s then
        match pyIter s with
        | Except.error e => Except.error e
        | Except.ok as_ =>
          match pyIter mp with
          | Except.error e => Except.error e
          | Except.ok bs => zipGuardAll as_ bs
      else
        match pyIter mp with
        | Except.error e => Except.error e
        | Except.ok bs => allLeScalar s bs

/-- Model of `collect_filtered` (`data_utils.py` lines 151-165), fully
consumed as `np.fromiter` does: elements for which the predicate holds
(or unconditionally, when `noskip`) are yielded in order, the rest are
appended to the `filtered` list in encounter order; a predicate exception
propagates (the predicate is evaluated before the `or noskip` test). -/
def collect_filtered (p : Nat → Except PyErr Bool) (noskip : Bool) :
    List Nat → Except PyErr (List Nat × List Nat)
  | [] => Except.ok ([], [])
  | x :: xs =>
    match p x with
    | Except.error e => Except.error e
    | Except.ok b =>
      match collect_filtered p noskip xs with
      | Except.error e => Except.error e
      | Except.ok (kept, dropped) =>
        if b || noskip then Except.ok (x :: kept, dropped)
        else Except.ok (kept, x :: dropped)

/-- Model of `_filter_by_size_dynamic` (`data_utils.py` lines 168-203):
runs `collect_filtered` with the `check_size` predicate and, when
`noskip`, reports an empty ignored list. -/
def _filter_by_size_dynamic (indices : List Nat) (size_fn : Nat → PyVal)
    (max_positions : PyVal) (noskip : Bool) : Except PyErr (List Nat × List Nat) :=
  match collect_filtered (check_size size_fn max_positions) noskip indices with
  | Except.error e => Except.error e
  | Except.ok (kept, ignored) => Except.ok (kept, if noskip then [] else ignored)

/-- The three shapes of the `dataset.sizes` attribute that `filter_by_size`
dispatches on: absent (dynamic path), a numpy array, or a one-element list
of arrays. -/
inductive SizesRepr where
  | noSizes
  | ndarray (szs : Nat → Int)
  | listOne (szs : Nat → Int)

/-- The slice of a fairseq dataset that `filter_by_size` consumes: the
optional `sizes` attribute and the `size` method. -/
structure DatasetModel where
  sizesRepr : SizesRepr
  size : Nat → PyVal

/-- Model of `filter_by_size` (`data_utils.py` lines 206-240).  Returns
the kept indices together with a flag recording whether the skipped-samples
warning was printed (`len(ignored) > 0`); raises the size exception when
`raise_exception` is set and some index was ignored.  A scalar limit with
an array-shaped `sizes` attribute takes the vectorised path (which ignores
`noskip`); every other combination goes through `_filter_by_size_dynamic`. -/
def filter_by_size (indices : List Nat) (ds : DatasetModel) (max_positions : PyVal)
    (raise_exception : Bool) (noskip : Bool) : Except PyErr (List Nat × Bool) :=
  let split : Except PyErr (List Nat × List Nat) :=
    match max_positions, ds.sizesRepr with
    | PyVal.int m, SizesRepr.ndarray szs =>
      Except.ok (indices.filter (fun i => decide (szs i ≤ m)),
                 indices.filter (fun i => decide (m < szs i)))
    | PyVal.int m, SizesRepr.listOne szs =>
      Except.ok (indices.filter (fun i => decide (szs i ≤ m)),
                 indices.filter (fun i => decide (m < szs i)))
    | mp, _ => _filter_by_size_dynamic indices ds.size mp noskip
  match split with
  | Except.error e => Except.error e
  | Except.ok (kept, ignored) =>
    if ignored.length > 0 && raise_exception then Except.error PyErr.sizeException
    else Except.ok (kept, ignored.length > 0)

/-- Modelled from the spec: `batch_by_size` (`data_utils.py` lines 335-369)
delegates the packing loop to the Cython extension
`fairseq.data.data_utils_fast.batch_by_size_fast`, whose source is not part
of this repository snapshot; this predicate models the spec's §4.2 batch-full
test: a non-empty running batch is closed when it has reached `max_sentences`
sentences or when the padded cost of adding the next index exceeds
`max_tokens` (an absent limit never triggers). -/
def is_batch_full (batchLen : Nat) (cost : Nat) (maxTokens maxSentences : Option Nat) : Bool :=
  if batchLen = 0 then false
  else if Option.some batchLen = maxSentences then true
  else
    match maxTokens with
    | Option.none => false
    | Option.some m => decide (m < cost)

/-- Maximum of a list of naturals (`max(sample_lens)` with 0 for empty). -/
def listMaxNat (xs : List Nat) : Nat := xs.foldl Nat.max 0

/-- Modelled from the spec: the greedy packing loop of §4.2 BatchPacker
(the Cython `batch_by_size_fast` is not under `src/`).  State: the running
batch, the token counts of its elements plus the incoming index, and the
running per-example maximum.  For each index the padded cost
`max(running_max, num_tokens(idx)) * (len(batch)+1)` is computed; when the
batch is full it is closed at a length that prefers a multiple of
`bszMult` (`max(bszMult * (len // bszMult), len % bszMult)` — the held-back
tail seeds the next batch), and the index is then appended to the running
batch. -/
def batch_by_size_go (ntf : Nat → Nat) (maxTokens maxSentences : Option Nat)
    (bszMult : Nat) : List Nat → List Nat → List Nat → Nat → List (List Nat)
  | [], batch, _, _ => if batch.isEmpty then [] else [batch]
  | idx :: rest, batch, sampleLens, sampleLen =>
    let nt := ntf idx
    let lens := sampleLens ++ [nt]
    let sl := Nat.max sampleLen nt
    let cost := (batch.length + 1) * sl
    if is_batch_full batch.length cost maxTokens maxSentences then
      let modLen := Nat.max (bszMult * (batch.length / bszMult)) (batch.length % bszMult)
      batch.take modLen ::
        batch_by_size_go ntf maxTokens maxSentences bszMult rest
          (batch.drop modLen ++ [idx]) (lens.drop modLen) (listMaxNat (lens.drop modLen))
    else
      batch_by_size_go ntf maxTokens maxSentences bszMult rest (batch ++ [idx]) lens sl

/-- Modelled from the spec: `batch_by_size` (§4.2 BatchPacker; the Cython
`batch_by_size_fast` the Python wrapper imports is not under `src/`).
`Option.none` for `max_tokens` or `max_sentences` is the wrapper's
`sys.maxsize` default, i.e. no constraint. -/
def batch_by_size (indices : List Nat) (num_tokens_fn : Nat → Nat)
    (maxTokens maxSentences : Option Nat) (bszMult : Nat) : List (List Nat) :=
  batch_by_size_go num_tokens_fn maxTokens maxSentences bszMult indices [] [] 0

/-- Effective seed of `numpy_seed` (`data_utils.py` lines 134-148): with
auxiliary seeds, `int(hash((seed, *addl_seeds)) % 1e6)` (the Python hash of
the tuple is the abstract `pyHash`); without them the seed verbatim. -/
def effSeed (pyHash : List Int → Int) (s : Int) (addl_seeds : List Int) : Int :=
  if addl_seeds.length > 0 then (pyHash (s :: addl_seeds)).emod 1000000 else s

/-- Model of the `numpy_seed` context manager (`data_utils.py` lines
134-148).  The global numpy PRNG state is an abstract type `σ`; seeding is
the abstract `seedState`; the managed body is an explicit state transformer
that may raise (`Except ε`).  With no seed the manager just runs the body.
Otherwise it captures the current state (`np.random.get_state()`), runs the
body from the freshly seeded state, and — this is the `try/finally` — the
captured state is the final state on both the normal and the exceptional
exit, the body's state being discarded. -/
def numpy_seed {σ ε α : Type} (seedState : Int → σ) (pyHash : List Int → Int)
    (seed : Option Int) (addl_seeds : List Int)
    (body : σ → Except ε α × σ) (g : σ) : Except ε α × σ :=
  match seed with
  | Option.none => body g
  | Option.some s =>
    let state := g
    let r := body (seedState (effSeed pyHash s addl_seeds))
    (r.1, state)

/-- The dictionary capability used by `switchout`: `pad()`, `eos()`,
`bos()` and `len(dic)`. -/
structure DictModel where
  padIdx : Int
  eosIdx : Int
  bosIdx : Int
  size : Nat

/-- The `sample_mask` of `switchout` (`data_utils.py` line 28): true at
positions holding a pad, eos or bos id. -/
def sampleMaskAt (d : DictModel) (t : Int) : Bool :=
  t == d.padIdx || t == d.eosIdx || t == d.bosIdx

/-- One row of the `corrupt_pos` tensor of `switchout` (lines 41-42): the
per-position corruption probability is the rational `num_words / length`
(`mkRat w len`), masked to 0 at pad/eos/bos positions; `torch.bernoulli`
yields 0 surely at probability 0 and otherwise the draw outcome `bern j`. -/
def corruptPosRow (d : DictModel) (len w : Nat) (bern : Nat → Bool) :
    Nat → List Int → List Bool
  | _, [] => []
  | j, t :: ts =>
    (if sampleMaskAt d t then false
     else if mkRat (Int.ofNat w) len = 0 then false
     else bern j) :: corruptPosRow d len w bern (j + 1) ts

/-- All rows of `corrupt_pos`; the categorical draw `num_words` and the
bernoulli outcomes are explicit per-row / per-position parameters, so a
theorem over them covers every outcome of the internal random draws. -/
def corruptPosRows (d : DictModel) (lengths numWords : Nat → Nat)
    (bern : Nat → Nat → Bool) : Nat → List (List Int) → List (List Bool)
  | _, [] => []
  | i, row :: rest =>
    corruptPosRow d (lengths i) (numWords i) (bern i) 0 row ::
      corruptPosRows d lengths numWords bern (i + 1) rest

/-- Number of `true` entries of a mask row list. -/
def countMask (rows : List (List Bool)) : Nat :=
  (rows.map (fun r => r.countP (fun b => b))).sum

/-- One row of `masked_scatter_` (line 49): positions where the mask is
true receive the next value of the flat source buffer (row-major order,
counter `k` threaded through), the rest stay 0. -/
def scatterRow (vals : Nat → Int) : Nat → List Bool → List Int × Nat
  | k, [] => ([], k)
  | k, b :: bs =>
    if b then
      let r := scatterRow vals (k + 1) bs
      (vals k :: r.1, r.2)
    else
      let r := scatterRow vals k bs
      (0 :: r.1, r.2)

/-- All rows of `masked_scatter_`, threading the flat-buffer counter. -/
def scatterRows (vals : Nat → Int) : Nat → List (List Bool) → List (List Int) × Nat
  | k, [] => ([], k)
  | k, r :: rs =>
    let row := scatterRow vals k r
    let rest := scatterRows vals row.2 rs
    (row.1 :: rest.1, rest.2)

/-- Final write of `switchout` (line 50):
`tokens.add(corrupts).remainder_(len(dic)).masked_fill_(pad_mask, pad)`,
positionwise over a row. -/
def switchoutWriteRow (d : DictModel) : List Int → List Int → List Int
  | t :: ts, c :: cs =>
    (if t == d.padIdx then d.padIdx else (t + c).emod (d.size : Int)) ::
      switchoutWriteRow d ts cs
  | _, _ => []

/-- Row-wise lifting of `switchoutWriteRow`. -/
def switchoutWriteRows (d : DictModel) : List (List Int) → List (List Int) → List (List Int)
  | t :: ts, c :: cs => switchoutWriteRow d t c :: switchoutWriteRows d ts cs
  | _, _ => []

/-- Model of `switchout` (`data_utils.py` lines 21-52).  The random draws
are explicit parameters: `numWords i` is the categorical sample for row
`i`, `bern i j` the bernoulli outcome at position `(i, j)` (consulted only
where the corruption probability is nonzero), and `corruptVal k` the `k`-th
entry of the `corrupt_val` buffer (which the code allocates with
`torch.LongTensor(total_words)` and never fills, so its contents are
whatever was in memory — hence also a free parameter).  If no position is
selected the input is returned unchanged; otherwise each selected position
receives `(token + corrupt_val) % len(dic)` and pad positions are re-filled
with the pad id. -/
def switchout (tokens : List (List Int)) (lengths : Nat → Nat) (d : DictModel)
    (numWords : Nat → Nat) (bern : Nat → Nat → Bool) (corruptVal : Nat → Int) :
    List (List Int) :=
  if countMask (corruptPosRows d lengths numWords bern 0 tokens) = 0 then tokens
  else
    switchoutWriteRows d tokens
      (scatterRows corruptVal 0 (corruptPosRows d lengths numWords bern 0 tokens)).1

/-- One padded output row of `collate_tokens` (`data_utils.py` lines
70-86), with `move_eos_to_beginning = False`: the row content placed at the
right end (`left_pad`) or the left end of a width-`size` row filled with
`pad_idx`. -/
def padRow (left_pad : Bool) (size : Nat) (pad_idx : Int) (v : List Int) : List Int :=
  if left_pad then List.replicate (size - v.length) pad_idx ++ v
  else v ++ List.replicate (size - v.length) pad_idx

/-- Width of the collated batch: `max(v.size(0) for v in values)`
(`ValueError` on an empty list is excluded by the caller's hypothesis). -/
def collateWidth (values : List (List Int)) : Nat :=
  listMaxNat (values.map List.length)

/-- The `copy_tensor` source row: with `move_eos_to_beginning` the row must
end in `eos_idx` (assertion) and becomes `eos` followed by the row without
its last element; otherwise the row itself. -/
def copyTensorSrc (move_eos : Bool) (eos_idx : Option Int) (v : List Int) :
    Except PyErr (List Int) :=
  if move_eos then
    match eos_idx with
    | Option.some e =>
      if v.getLast? == Option.some e then Except.ok (e :: v.dropLast)
      else Except.error PyErr.assertionError
    | Option.none => Except.error PyErr.assertionError
  else Except.ok v

/-- The row loop of `collate_tokens`: each row is transformed by
`copy_tensor` and written into a `pad_idx`-filled row of width `size`,
stopping at the first failing assertion. -/
def collateRows (move_eos : Bool) (eos_idx : Option Int) (size : Nat) (pad_idx : Int)
    (left_pad : Bool) : List (List Int) → Except PyErr (List (List Int))
  | [] => Except.ok []
  | v :: vs =>
    match copyTensorSrc move_eos eos_idx v with
    | Except.error e => Except.error e
    | Except.ok src =>
      match collateRows move_eos eos_idx size pad_idx left_pad vs with
      | Except.error e => Except.error e
      | Except.ok rows => Except.ok (padRow left_pad size pad_idx src :: rows)

/-- Model of `collate_tokens` (`data_utils.py` lines 70-86): every row is
transformed by `copy_tensor` and written into a `pad_idx`-filled row of
width `max(len)`, at the right end when `left_pad` and at the left end
otherwise. -/
def collate_tokens (values : List (List Int)) (pad_idx : Int) (eos_idx : Option Int)
    (left_pad : Bool) (move_eos : Bool) : Except PyErr (List (List Int)) :=
  collateRows move_eos eos_idx (collateWidth values) pad_idx left_pad values

/-- Fuelled core of Python `str.replace`: scan left to right, replace each
(non-overlapping) occurrence of `pat`, an empty `pat` matching between any
two characters.  The fuel is an upper bound on the scan length, consumed
one character per step, so the definition is structural and evaluates by
kernel reduction. -/
def pyReplaceFuel (pat rep : List Char) : Nat → List Char → List Char
  | 0, s => s
  | _ + 1, [] => if pat = [] then rep else []
  | fuel + 1, c :: cs =>
    if pat = [] then rep ++ c :: pyReplaceFuel pat rep fuel cs
    else if pat.isPrefixOf (c :: cs) then
      rep ++ pyReplaceFuel pat rep fuel ((c :: cs).drop pat.length)
    else c :: pyReplaceFuel pat rep fuel cs

/-- Python `s.replace(pat, rep)` over character lists. -/
def pyReplace (s pat rep : List Char) : List Char :=
  pyReplaceFuel pat rep (s.length + 1) s

/-- Python whitespace test for `strip`/`rstrip`: the ASCII whitespace
characters space, tab, newline, vertical tab, form feed and carriage
return (the modelled sentences contain only spaces). -/
def pySpace (c : Char) : Bool :=
  c == ' ' || c == '\t' || c == '\n' || c == '\x0b' || c == '\x0c' || c == '\r'

/-- Python `s.rstrip()`: drop trailing whitespace. -/
def pyRstrip (s : List Char) : List Char :=
  (s.reverse.dropWhile pySpace).reverse

/-- Python `s.strip()`: drop leading and trailing whitespace. -/
def pyStrip (s : List Char) : List Char :=
  pyRstrip (s.dropWhile pySpace)

/-- Model of `process_bpe_symbol` (`data_utils.py` lines 372-377): the
literal symbol `"sentencepiece"` removes all spaces, turns the `▁` marker
(U+2581) into a space and strips; any other non-`None` symbol is removed
from `sentence + " "` and the result right-stripped; a `None` symbol
returns the sentence unchanged. -/
def process_bpe_symbol (sentence : String) (bpe_symbol : Option String) : String :=
  match bpe_symbol with
  | Option.some sym =>
    if sym = "sentencepiece" then
      String.mk (pyStrip (pyReplace (pyReplace sentence.toList [' '] []) ['▁'] [' ']))
    else
      String.mk (pyRstrip (pyReplace (sentence.toList ++ [' ']) sym.toList []))
  | Option.none => sentence

/-- The per-LangPair entry of a training sample: the modelled slice is the
number of collated fields (`len(sample[lang_pair])`, zero meaning an empty
sub-sample) plus an abstract payload consumed by the criterion. -/
structure SampleData (P : Type) where
  len : Nat
  payload : P

/-- Association lookup on string keys, the semantics of
`lang_pair in sample` / `sample[lang_pair]` for the modelled sample dict
(a missing key, an explicit `None`, or present data). -/
def lookupSample {P : Type} (k : String) :
    List (String × Option (SampleData P)) → Option (Option (SampleData P))
  | [] => Option.none
  | (k', v) :: rest => if k' = k then Option.some v else lookupSample k rest

/-- The skip test shared by `train_step` and `valid_step`
(`multilingual_translation.py` lines 366, 389, 419):
`lang_pair not in sample or sample[lang_pair] is None or
len(sample[lang_pair]) == 0`. -/
def langPairAbsent {P : Type} (sample : List (String × Option (SampleData P)))
    (lp : String) : Bool :=
  match lookupSample lp sample with
  | Option.none => true
  | Option.some Option.none => true
  | Option.some (Option.some s) => s.len == 0

/-- Loop body of the aggregation loop of
`MultilingualTranslationTask.train_step` (`multilingual_translation.py`
lines 388-412): skip a pair that is absent from the sample, otherwise add
the criterion's loss (zeroed under `ignore_grad`, since `loss *= 0`
precedes `agg_loss += loss`) and sample size, and record the logging output
under the pair's key. -/
def trainStepF {P L : Type} (sample : List (String × Option (SampleData P)))
    (crit : String → SampleData P → Option Int → Int × Int × L)
    (scoreOf : String → Option Int) (ignore_grad : Bool)
    (acc : Int × Int × List (String × L)) (lp : String) :
    Int × Int × List (String × L) :=
  match lookupSample lp sample with
  | Option.none => acc
  | Option.some Option.none => acc
  | Option.some (Option.some s) =>
    if s.len == 0 then acc
    else
      let out := crit lp s (scoreOf lp)
      let loss := if ignore_grad then 0 else out.1
      (acc.1 + loss, acc.2.1 + out.2.1, acc.2.2 ++ [(lp, out.2.2)])

/-- Model of the aggregation loop of
`MultilingualTranslationTask.train_step` (`multilingual_translation.py`
lines 388-412): fold `trainStepF` over the configured `model_lang_pairs`
from zero aggregates.  The criterion and the data-actor score lookup
(`normed_data_score`) are abstract parameters; gradient side effects of
`optimizer.backward` are outside the model. -/
def train_step {P L : Type} (pairs : List String)
    (sample : List (String × Option (SampleData P)))
    (crit : String → SampleData P → Option Int → Int × Int × L)
    (scoreOf : String → Option Int) (ignore_grad : Bool) :
    Int × Int × List (String × L) :=
  pairs.foldl (trainStepF sample crit scoreOf ignore_grad) (0, 0, [])

/-- Loop body of `MultilingualTranslationTask.valid_step`
(`multilingual_translation.py` lines 414-426): the same skip rule as
`trainStepF`, with the criterion called without a data score. -/
def validStepF {P L : Type} (sample : List (String × Option (SampleData P)))
    (crit : String → SampleData P → Int × Int × L)
    (acc : Int × Int × List (String × L)) (lp : String) :
    Int × Int × List (String × L) :=
  match lookupSample lp sample with
  | Option.none => acc
  | Option.some Option.none => acc
  | Option.some (Option.some s) =>
    if s.len == 0 then acc
    else
      let out := crit lp s
      (acc.1 + out.1, acc.2.1 + out.2.1, acc.2.2 ++ [(lp, out.2.2)])

/-- Model of the aggregation loop of
`MultilingualTranslationTask.valid_step` (`multilingual_translation.py`
lines 414-426): fold `validStepF` over `eval_lang_pairs` from zero
aggregates. -/
def valid_step {P L : Type} (pairs : List String)
    (sample : List (String × Option (SampleData P)))
    (crit : String → SampleData P → Int × Int × L) :
    Int × Int × List (String × L) :=
  pairs.foldl (validStepF sample crit) (0, 0, [])

section BatchPackerTheorems

/-- The packing loop emits, in order, exactly the pending batch followed by
the unprocessed indices: closing a batch moves a prefix of the pending
batch to the output and keeps the rest pending, so nothing is lost,
duplicated or reordered. -/
theorem batch_by_size_go_join (ntf : Nat → Nat) (maxTokens maxSentences : Option Nat)
    (bszMult : Nat) (l : List Nat) :
    ∀ batch sampleLens sampleLen,
      (batch_by_size_go ntf maxTokens maxSentences bszMult l batch sampleLens sampleLen).flatten
        = batch ++ l := by
  induction l with
  | nil =>
    intro batch sampleLens sampleLen
    by_cases hb : batch = []
    · simp [batch_by_size_go, hb]
    · simp [batch_by_size_go, List.isEmpty_iff, hb]
  | cons idx rest ih =>
    intro batch sampleLens sampleLen
    rw [batch_by_size_go]
    by_cases hfull :
        is_batch_full batch.length
          ((batch.length + 1) * Nat.max sampleLen (ntf idx)) maxTokens maxSentences
    · rw [if_pos hfull, List.flatten_cons, ih]
      simp only [← List.append_assoc, List.take_append_drop]
      simp
    · rw [if_neg hfull, ih]
      simp

/-- Claim C1: for every non-empty input index sequence and valid
`max_tokens` / `max_sentences`, the concatenation, in order, of all batches
produced by `batch_by_size` equals the input index sequence: no index is
lost, duplicated, or reordered. -/
theorem claim_C1_batch_by_size_concat (indices : List Nat) (num_tokens_fn : Nat → Nat)
    (maxTokens maxSentences : Option Nat) (bszMult : Nat) (hne : indices ≠ []) :
    (batch_by_size indices num_tokens_fn maxTokens maxSentences bszMult).flatten = indices := by
  have h := batch_by_size_go_join num_tokens_fn maxTokens maxSentences bszMult indices [] [] 0
  simpa [batch_by_size] using h

/-- Witness for C1 on the spec's §8 example: indices `[0,1,2,3]` with token
counts `[3,5,2,9]`, `max_tokens = 10`, `max_sentences = 3`, multiple 1. -/
theorem claim_C1_witness :
    ([0, 1, 2, 3] : List Nat) ≠ [] ∧
      (batch_by_size [0, 1, 2, 3] (fun i => [3, 5, 2, 9].getD i 0)
        (Option.some 10) (Option.some 3) 1).flatten = [0, 1, 2, 3] :=
  ⟨by decide,
    claim_C1_batch_by_size_concat [0, 1, 2, 3] (fun i => [3, 5, 2, 9].getD i 0)
      (Option.some 10) (Option.some 3) 1 (by decide)⟩

end BatchPackerTheorems

section SeedTheorems

/-- Claim C4: `numpy_seed` with seed `None` is a no-op wrapper; with a seed
and auxiliary seeds the body runs from the PRNG seeded with
`hash(seed, *aux) mod 1_000_000`, else from the seed verbatim; on every
exit path (the body's `Except` result covers both normal completion and an
exception) the global PRNG state after exit equals the state captured
before entry; and the body's result does not depend on the pre-entry
global state, so equal seeds give bit-identical draw sequences. -/
theorem claim_C4_numpy_seed {σ ε α : Type} (seedState : Int → σ) (pyHash : List Int → Int)
    (addl : List Int) (body : σ → Except ε α × σ) (g g' : σ) (s a : Int)
    (as_ : List Int) :
    numpy_seed seedState pyHash Option.none addl body g = body g ∧
      (numpy_seed seedState pyHash (Option.some s) addl body g).2 = g ∧
      (numpy_seed seedState pyHash (Option.some s) addl body g).1
        = (body (seedState (effSeed pyHash s addl))).1 ∧
      effSeed pyHash s (a :: as_) = (pyHash (s :: a :: as_)).emod 1000000 ∧
      effSeed pyHash s [] = s ∧
      (numpy_seed seedState pyHash (Option.some s) addl body g).1
        = (numpy_seed seedState pyHash (Option.some s) addl body g').1 := by
  refine ⟨rfl, rfl, rfl, ?_, rfl, rfl⟩
  simp [effSeed]

end SeedTheorems

section BpeTheorems

/-- Counterexample for C8: with symbol `"@@"` the code computes
`("he@@ llo@@ world" + " ").replace("@@", "").rstrip()`, which removes
only the bare `"@@"` occurrences and leaves the separating spaces, so the
call returns `"he llo world"` and in particular does not return
`"hello world"` as the claim states. -/
theorem claim_C8_counterexample :
    process_bpe_symbol "he@@ llo@@ world" (Option.some "@@") ≠ "hello world" ∧
      process_bpe_symbol "he@@ llo@@ world" (Option.some "@@") = "he llo world" ∧
      "he llo world" ≠ "hello world" := by
  refine ⟨?_, rfl, ?_⟩
  · decide
  · decide

/-- Claim C8 (amended): `process_bpe_symbol` applied to
`"he@@ llo@@ world"` with symbol `"@@"` returns `"he llo world"`, and
applied to `"▁he ▁llo"` with symbol `"sentencepiece"` returns `"he llo"`. -/
theorem claim_C8_process_bpe_symbol :
    process_bpe_symbol "he@@ llo@@ world" (Option.some "@@") = "he llo world" ∧
      process_bpe_symbol "▁he ▁llo" (Option.some "sentencepiece") = "he llo" := by
  constructor <;> rfl

end BpeTheorems

section FilterTheorems

/-- Did the fallible computation succeed. -/
def exceptOk {ε α : Type} : Except ε α → Bool
  | Except.ok _ => true
  | Except.error _ => false

/-- The boolean value of a successful predicate run (`false` on error; the
error case is unreachable under a successful `collect_filtered` run). -/
def keepB (p : Nat → Except PyErr Bool) (i : Nat) : Bool :=
  match p i with
  | Except.ok b => b
  | Except.error _ => false

/-- A successful `collect_filtered` run with `noskip = false` partitions
its input: the yielded elements are exactly the input filtered by the
predicate (in order), the collected elements exactly the input filtered by
its negation (in encounter order), and each side is characterised by the
predicate's value. -/
theorem collect_filtered_false_spec (p : Nat → Except PyErr Bool) (l : List Nat) :
    ∀ kept dropped, collect_filtered p false l = Except.ok (kept, dropped) →
      kept = l.filter (keepB p) ∧ dropped = l.filter (fun i => ! keepB p i) ∧
        (∀ i ∈ kept, p i = Except.ok true) ∧ (∀ i ∈ dropped, p i = Except.ok false) := by
  induction l with
  | nil =>
    intro kept dropped h
    rw [collect_filtered] at h
    simp only [Except.ok.injEq, Prod.mk.injEq] at h
    obtain ⟨rfl, rfl⟩ := h
    simp
  | cons x xs ih =>
    intro kept dropped h
    rcases hp : p x with e | b
    · rw [collect_filtered, hp] at h
      exact Except.noConfusion h
    · rcases hr : collect_filtered p false xs with e' | ⟨k', d'⟩
      · rw [collect_filtered, hp, hr] at h
        exact Except.noConfusion h
      · obtain ⟨hk', hd', hpk, hpd⟩ := ih k' d' hr
        have hkeep : keepB p x = b := by simp [keepB, hp]
        cases b with
        | true =>
          have hstep : collect_filtered p false (x :: xs) = Except.ok (x :: k', d') := by
            simp [collect_filtered, hp, hr]
          rw [hstep] at h
          simp only [Except.ok.injEq, Prod.mk.injEq] at h
          obtain ⟨rfl, rfl⟩ := h
          refine ⟨?_, ?_, ?_, hpd⟩
          · rw [List.filter_cons_of_pos (by simp [hkeep]), hk']
          · rw [List.filter_cons_of_neg (by simp [hkeep]), hd']
          · intro i hi
            rcases List.mem_cons.mp hi with hx | hi'
            · rw [hx]; exact hp
            · exact hpk i hi'
        | false =>
          have hstep : collect_filtered p false (x :: xs) = Except.ok (k', x :: d') := by
            simp [collect_filtered, hp, hr]
          rw [hstep] at h
          simp only [Except.ok.injEq, Prod.mk.injEq] at h
          obtain ⟨rfl, rfl⟩ := h
          refine ⟨?_, ?_, hpk, ?_⟩
          · rw [List.filter_cons_of_neg (by simp [hkeep]), hk']
          · rw [List.filter_cons_of_pos (by simp [hkeep]), hd']
          · intro i hi
            rcases List.mem_cons.mp hi with hx | hi'
            · rw [hx]; exact hp
            · exact hpd i hi'

/-- Claim C2: a successful `_filter_by_size_dynamic` run (the path of
`filter_by_size` backed by `collect_filtered`) keeps a subsequence of the
input in input order, every kept index satisfies the `check_size` limit
predicate, every dropped index violates it, and the dropped list is the
complementary subsequence in encounter order. -/
theorem claim_C2_filter_by_size (indices : List Nat) (size_fn : Nat → PyVal)
    (max_positions : PyVal) (kept dropped : List Nat)
    (h : _filter_by_size_dynamic indices size_fn max_positions false
          = Except.ok (kept, dropped)) :
    kept.Sublist indices ∧ dropped.Sublist indices ∧
      kept = indices.filter (keepB (check_size size_fn max_positions)) ∧
      dropped = indices.filter (fun i => ! keepB (check_size size_fn max_positions) i) ∧
      (∀ i ∈ kept, check_size size_fn max_positions i = Except.ok true) ∧
      (∀ i ∈ dropped, check_size size_fn max_positions i = Except.ok false) := by
  have hc : collect_filtered (check_size size_fn max_positions) false indices
      = Except.ok (kept, dropped) := by
    rcases hr : collect_filtered (check_size size_fn max_positions) false indices
      with e | ⟨k', d'⟩
    · rw [_filter_by_size_dynamic, hr] at h
      exact Except.noConfusion h
    · rw [_filter_by_size_dynamic, hr] at h
      simp only [Bool.false_eq_true, if_false, Except.ok.injEq, Prod.mk.injEq] at h
      obtain ⟨rfl, rfl⟩ := h
      rfl
  obtain ⟨hk, hd, hpk, hpd⟩ :=
    collect_filtered_false_spec (check_size size_fn max_positions) indices kept dropped hc
  refine ⟨?_, ?_, hk, hd, hpk, hpd⟩
  · rw [hk]; exact List.filter_sublist indices
  · rw [hd]; exact List.filter_sublist indices

/-- Witness for C2: sizes `0, 1, 2` against scalar limit `1` keep `[0, 1]`
and drop `[2]`. -/
theorem claim_C2_witness :
    _filter_by_size_dynamic [0, 1, 2] (fun i => PyVal.int (i : Int)) (PyVal.int 1) false
        = Except.ok ([0, 1], [2]) ∧
      ([0, 1] : List Nat).Sublist [0, 1, 2] ∧
      (∀ i ∈ ([2] : List Nat),
        check_size (fun i => PyVal.int (i : Int)) (PyVal.int 1) i = Except.ok false) :=
  ⟨rfl,
    (claim_C2_filter_by_size [0, 1, 2] (fun i => PyVal.int (i : Int)) (PyVal.int 1)
      [0, 1] [2] rfl).1,
    (claim_C2_filter_by_size [0, 1, 2] (fun i => PyVal.int (i : Int)) (PyVal.int 1)
      [0, 1] [2] rfl).2.2.2.2.2⟩

/-- Counterexample for C3: with a scalar limit and a tuple size whose first
field satisfies the limit, the code does not keep the index — `s.values()`
on a tuple raises `AttributeError`, so the dynamic filter run fails instead
of keeping the index as the claim asserts for tuple sizes. -/
theorem claim_C3_counterexample :
    check_size (fun _ => PyVal.tup [PyVal.int 3]) (PyVal.int 5) 0
        = Except.error PyErr.attributeError ∧
      (3 : Int) ≤ 5 ∧
      _filter_by_size_dynamic [0] (fun _ => PyVal.tup [PyVal.int 3]) (PyVal.int 5) false
        = Except.error PyErr.attributeError :=
  ⟨rfl, by decide, rfl⟩

/-- Claim C3 (amended): when the size limit is a scalar and the per-index
size is a dict whose first field holds a scalar, size filtering keeps the
index if and only if that first field's value is `<=` the scalar limit; a
tuple-shaped size on this path raises `AttributeError` instead (see the
counterexample). -/
theorem claim_C3_scalar_limit_first_field (size_fn : Nat → PyVal) (idx : Nat)
    (k : String) (n m : Int) (rest : List (String × PyVal))
    (h : size_fn idx = PyVal.dict ((k, PyVal.int n) :: rest)) :
    check_size size_fn (PyVal.int m) idx = Except.ok (decide (n ≤ m)) := by
  simp [check_size, h, pyLe]

/-- Witness for C3: a dict size with first field `3` against limit `5` is
kept. -/
theorem claim_C3_witness :
    (fun _ => PyVal.dict [("a", PyVal.int 3)]) 0 = PyVal.dict [("a", PyVal.int 3)] ∧
      check_size (fun _ => PyVal.dict [("a", PyVal.int 3)]) (PyVal.int 5) 0
        = Except.ok true :=
  ⟨rfl, by
    have h := claim_C3_scalar_limit_first_field (fun _ => PyVal.dict [("a", PyVal.int 3)])
      0 "a" 3 5 [] rfl
    simpa using h⟩

/-- A `collect_filtered` run with `noskip = true` yields every element in
order and collects nothing, provided each predicate call succeeds (the
predicate is still evaluated before the `or noskip` short-circuit). -/
theorem collect_filtered_noskip (p : Nat → Except PyErr Bool) (l : List Nat)
    (h : ∀ i ∈ l, exceptOk (p i) = true) :
    collect_filtered p true l = Except.ok (l, []) := by
  induction l with
  | nil => rfl
  | cons x xs ih =>
    have hx : exceptOk (p x) = true := h x (List.mem_cons_self x xs)
    rcases hp : p x with e | b
    · rw [hp] at hx; exact absurd hx (by simp [exceptOk])
    · rw [collect_filtered, hp, ih (fun i hi => h i (List.mem_cons_of_mem x hi))]
      simp

/-- Claim C10: `filter_by_size` with `noskip = True` on the dynamic
filtering path returns every input index (even limit violators), reports an
empty ignored list, raises no exception even when `raise_exception` is
set, and emits no warning (the returned flag is `false`). -/
theorem claim_C10_noskip (indices : List Nat) (size_fn : Nat → PyVal)
    (max_positions : PyVal) (raise_exception : Bool)
    (h : ∀ i ∈ indices, exceptOk (check_size size_fn max_positions i) = true) :
    _filter_by_size_dynamic indices size_fn max_positions true
        = Except.ok (indices, []) ∧
      filter_by_size indices ⟨SizesRepr.noSizes, size_fn⟩ max_positions raise_exception true
        = Except.ok (indices, false) := by
  have hc := collect_filtered_noskip (check_size size_fn max_positions) indices h
  have h1 : _filter_by_size_dynamic indices size_fn max_positions true
      = Except.ok (indices, []) := by
    rw [_filter_by_size_dynamic, hc]
    rfl
  refine ⟨h1, ?_⟩
  have h2 : filter_by_size indices ⟨SizesRepr.noSizes, size_fn⟩ max_positions
        raise_exception true
      = match _filter_by_size_dynamic indices size_fn max_positions true with
        | Except.error e => Except.error e
        | Except.ok (kept, ignored) =>
          if ignored.length > 0 && raise_exception then Except.error PyErr.sizeException
          else Except.ok (kept, ignored.length > 0) := by
    cases max_positions <;> rfl
  rw [h2, h1]
  rfl

/-- Witness for C10: index `5` violates the scalar limit `1` yet is
returned, with no exception despite `raise_exception = true`. -/
theorem claim_C10_witness :
    (∀ i ∈ ([0, 5] : List Nat),
        exceptOk (check_size (fun i => PyVal.int (i : Int)) (PyVal.int 1) i) = true) ∧
      filter_by_size [0, 5] ⟨SizesRepr.noSizes, fun i => PyVal.int (i : Int)⟩
          (PyVal.int 1) true true = Except.ok ([0, 5], false) :=
  ⟨by decide,
    (claim_C10_noskip [0, 5] (fun i => PyVal.int (i : Int)) (PyVal.int 1) true
      (by decide)).2⟩

end FilterTheorems

section StepTheorems

/-- A fold whose body fixes the accumulator on skipped keys computes the
same value over the list filtered to the kept keys. -/
theorem foldl_skip_filter {β : Type} (F : β → String → β) (present : String → Bool)
    (hskip : ∀ acc lp, present lp = false → F acc lp = acc) :
    ∀ (pairs : List String) (acc : β),
      pairs.foldl F acc = (pairs.filter present).foldl F acc := by
  intro pairs
  induction pairs with
  | nil => intro acc; rfl
  | cons lp rest ih =>
    intro acc
    by_cases hp : present lp = true
    · rw [List.foldl_cons, List.filter_cons_of_pos hp, List.foldl_cons, ih]
    · have hp' : present lp = false := by revert hp; cases present lp <;> simp
      rw [List.foldl_cons, hskip acc lp hp', List.filter_cons_of_neg (by simp [hp']), ih]

/-- A fold whose body fixes the accumulator on skipped keys and appends
exactly one entry keyed by each kept key produces, as logging keys, the
kept keys in order. -/
theorem foldl_logging_keys {L : Type}
    (F : (Int × Int × List (String × L)) → String → Int × Int × List (String × L))
    (present : String → Bool)
    (hskip : ∀ acc lp, present lp = false → F acc lp = acc)
    (hkey : ∀ acc lp, present lp = true → ∃ v, (F acc lp).2.2 = acc.2.2 ++ [(lp, v)]) :
    ∀ (pairs : List String) (acc : Int × Int × List (String × L)),
      (pairs.foldl F acc).2.2.map Prod.fst
        = acc.2.2.map Prod.fst ++ pairs.filter present := by
  intro pairs
  induction pairs with
  | nil => intro acc; simp
  | cons lp rest ih =>
    intro acc
    by_cases hp : present lp = true
    · obtain ⟨v, hv⟩ := hkey acc lp hp
      rw [List.foldl_cons, List.filter_cons_of_pos hp, ih (F acc lp), hv]
      simp
    · have hp' : present lp = false := by revert hp; cases present lp <;> simp
      rw [List.foldl_cons, hskip acc lp hp', List.filter_cons_of_neg (by simp [hp']), ih]

/-- An absent LangPair leaves the train-step accumulator untouched. -/
theorem trainStepF_absent {P L : Type} (sample : List (String × Option (SampleData P)))
    (crit : String → SampleData P → Option Int → Int × Int × L)
    (scoreOf : String → Option Int) (ignore_grad : Bool)
    (acc : Int × Int × List (String × L)) (lp : String)
    (h : langPairAbsent sample lp = true) :
    trainStepF sample crit scoreOf ignore_grad acc lp = acc := by
  rcases hl : lookupSample lp sample with _ | (_ | s)
  · simp [trainStepF, hl]
  · simp [trainStepF, hl]
  · simp only [langPairAbsent, hl] at h
    simp [trainStepF, hl, h]

/-- A present LangPair appends exactly one logging entry under its key. -/
theorem trainStepF_append {P L : Type} (sample : List (String × Option (SampleData P)))
    (crit : String → SampleData P → Option Int → Int × Int × L)
    (scoreOf : String → Option Int) (ignore_grad : Bool)
    (acc : Int × Int × List (String × L)) (lp : String)
    (h : langPairAbsent sample lp = false) :
    ∃ v, (trainStepF sample crit scoreOf ignore_grad acc lp).2.2 = acc.2.2 ++ [(lp, v)] := by
  rcases hl : lookupSample lp sample with _ | (_ | s)
  · simp [langPairAbsent, hl] at h
  · simp [langPairAbsent, hl] at h
  · simp only [langPairAbsent, hl] at h
    exact ⟨(crit lp s (scoreOf lp)).2.2, by simp [trainStepF, hl, h]⟩

/-- An absent LangPair leaves the valid-step accumulator untouched. -/
theorem validStepF_absent {P L : Type} (sample : List (String × Option (SampleData P)))
    (crit : String → SampleData P → Int × Int × L)
    (acc : Int × Int × List (String × L)) (lp : String)
    (h : langPairAbsent sample lp = true) :
    validStepF sample crit acc lp = acc := by
  rcases hl : lookupSample lp sample with _ | (_ | s)
  · simp [validStepF, hl]
  · simp [validStepF, hl]
  · simp only [langPairAbsent, hl] at h
    simp [validStepF, hl, h]

/-- A present LangPair appends exactly one logging entry under its key. -/
theorem validStepF_append {P L : Type} (sample : List (String × Option (SampleData P)))
    (crit : String → SampleData P → Int × Int × L)
    (acc : Int × Int × List (String × L)) (lp : String)
    (h : langPairAbsent sample lp = false) :
    ∃ v, (validStepF sample crit acc lp).2.2 = acc.2.2 ++ [(lp, v)] := by
  rcases hl : lookupSample lp sample with _ | (_ | s)
  · simp [langPairAbsent, hl] at h
  · simp [langPairAbsent, hl] at h
  · simp only [langPairAbsent, hl] at h
    exact ⟨(crit lp s).2.2, by simp [validStepF, hl, h]⟩

/-- Claim C9: in `train_step` and `valid_step`, a configured LangPair that
is absent from the current sample (missing key, `None`, or empty) is
skipped (the fold body is total, so no error is raised), the aggregated
loss, sample size and logging output equal those computed over the present
LangPairs alone — zero contribution from absent pairs — and the logging
output carries exactly the present LangPairs as keys (so never an absent
one). -/
theorem claim_C9_absent_langpair_skipped {P L : Type} (pairs : List String)
    (sample : List (String × Option (SampleData P)))
    (crit : String → SampleData P → Option Int → Int × Int × L)
    (scoreOf : String → Option Int) (ignore_grad : Bool)
    (critv : String → SampleData P → Int × Int × L) :
    train_step pairs sample crit scoreOf ignore_grad
        = train_step (pairs.filter (fun lp => ! langPairAbsent sample lp)) sample crit
            scoreOf ignore_grad ∧
      (train_step pairs sample crit scoreOf ignore_grad).2.2.map Prod.fst
        = pairs.filter (fun lp => ! langPairAbsent sample lp) ∧
      valid_step pairs sample critv
        = valid_step (pairs.filter (fun lp => ! langPairAbsent sample lp)) sample critv ∧
      (valid_step pairs sample critv).2.2.map Prod.fst
        = pairs.filter (fun lp => ! langPairAbsent sample lp) := by
  have hskipT : ∀ acc lp, (! langPairAbsent sample lp) = false →
      trainStepF sample crit scoreOf ignore_grad acc lp = acc := by
    intro acc lp h
    exact trainStepF_absent sample crit scoreOf ignore_grad acc lp (by simpa using h)
  have hkeyT : ∀ acc lp, (! langPairAbsent sample lp) = true →
      ∃ v, (trainStepF sample crit scoreOf ignore_grad acc lp).2.2 = acc.2.2 ++ [(lp, v)] := by
    intro acc lp h
    exact trainStepF_append sample crit scoreOf ignore_grad acc lp (by simpa using h)
  have hskipV : ∀ acc lp, (! langPairAbsent sample lp) = false →
      validStepF sample critv acc lp = acc := by
    intro acc lp h
    exact validStepF_absent sample critv acc lp (by simpa using h)
  have hkeyV : ∀ acc lp, (! langPairAbsent sample lp) = true →
      ∃ v, (validStepF sample critv acc lp).2.2 = acc.2.2 ++ [(lp, v)] := by
    intro acc lp h
    exact validStepF_append sample critv acc lp (by simpa using h)
  refine ⟨?_, ?_, ?_, ?_⟩
  · exact foldl_skip_filter _ _ hskipT pairs (0, 0, [])
  · have h := foldl_logging_keys _ _ hskipT hkeyT pairs (0, 0, [])
    simpa [train_step] using h
  · exact foldl_skip_filter _ _ hskipV pairs (0, 0, [])
  · have h := foldl_logging_keys _ _ hskipV hkeyV pairs (0, 0, [])
    simpa [valid_step] using h

end StepTheorems

section CollateTheorems

/-- The seed of a running maximum is a lower bound of the result. -/
theorem le_foldl_max (xs : List Nat) : ∀ b, b ≤ xs.foldl Nat.max b := by
  induction xs with
  | nil => intro b; exact Nat.le_refl b
  | cons x xs ih =>
    intro b
    exact Nat.le_trans (Nat.le_max_left b x) (ih (Nat.max b x))

/-- Every member of a list bounds from below the running maximum. -/
theorem mem_le_foldl_max (xs : List Nat) (a : Nat) (ha : a ∈ xs) :
    ∀ b, a ≤ xs.foldl Nat.max b := by
  induction xs with
  | nil => cases ha
  | cons x xs ih =>
    intro b
    rcases List.mem_cons.mp ha with rfl | hmem
    · exact Nat.le_trans (Nat.le_max_right b a) (le_foldl_max xs (Nat.max b a))
    · exact ih hmem (Nat.max b x)

/-- Every row is at most as long as the collated width. -/
theorem length_le_collateWidth (values : List (List Int)) (v : List Int)
    (hv : v ∈ values) : v.length ≤ collateWidth values :=
  mem_le_foldl_max _ v.length (List.mem_map_of_mem List.length hv) 0

/-- With `move_eos_to_beginning = False` the row loop never fails and pads
every row in order. -/
theorem collateRows_no_move (eos_idx : Option Int) (size : Nat) (pad_idx : Int)
    (left_pad : Bool) :
    ∀ values : List (List Int),
      collateRows false eos_idx size pad_idx left_pad values
        = Except.ok (values.map (padRow left_pad size pad_idx)) := by
  intro values
  induction values with
  | nil => rfl
  | cons v vs ih => rw [collateRows, ih]; rfl

/-- Claim C7: `collate_tokens` round-trips (with
`move_eos_to_beginning = False`).  For every non-empty list of sequences
the call succeeds, every output row has width equal to the maximum input
length, the pad-side of each row is `pad_idx`-filled per `left_pad`, and
truncating each output row back to its original length recovers the
original sequence exactly, in both left-pad and right-pad modes. -/
theorem claim_C7_collate_tokens_round_trip (values : List (List Int)) (pad_idx : Int)
    (eos_idx : Option Int) (left_pad : Bool) (hne : values ≠ []) :
    collate_tokens values pad_idx eos_idx left_pad false
        = Except.ok (values.map (padRow left_pad (collateWidth values) pad_idx)) ∧
      (∀ v ∈ values,
        (padRow left_pad (collateWidth values) pad_idx v).length = collateWidth values) ∧
      (∀ v ∈ values,
        (if left_pad then
          (padRow left_pad (collateWidth values) pad_idx v).drop (collateWidth values - v.length)
        else
          (padRow left_pad (collateWidth values) pad_idx v).take v.length) = v) ∧
      (∀ v ∈ values,
        (if left_pad then
          (padRow left_pad (collateWidth values) pad_idx v).take (collateWidth values - v.length)
        else
          (padRow left_pad (collateWidth values) pad_idx v).drop v.length)
          = List.replicate (collateWidth values - v.length) pad_idx) := by
  refine ⟨collateRows_no_move eos_idx (collateWidth values) pad_idx left_pad values,
    ?_, ?_, ?_⟩
  · intro v hv
    have hle := length_le_collateWidth values v hv
    cases left_pad <;> simp [padRow] <;> omega
  · intro v hv
    cases left_pad with
    | false =>
      simp only [padRow, if_false, Bool.false_eq_true]
      exact List.take_left v _
    | true =>
      simp only [padRow, if_true]
      have hrep : (List.replicate (collateWidth values - v.length) pad_idx).length
          = collateWidth values - v.length := List.length_replicate _ _
      rw [List.drop_left' hrep]
  · intro v hv
    cases left_pad with
    | false =>
      simp only [padRow, if_false, Bool.false_eq_true]
      exact List.drop_left v _
    | true =>
      simp only [padRow, if_true]
      have hrep : (List.replicate (collateWidth values - v.length) pad_idx).length
          = collateWidth values - v.length := List.length_replicate _ _
      rw [List.take_left' hrep]

/-- Witness for C7: collating `[[1], [2, 3]]` with pad id `9`, left-pad
mode. -/
theorem claim_C7_witness :
    ([[1], [2, 3]] : List (List Int)) ≠ [] ∧
      collate_tokens [[1], [2, 3]] 9 Option.none true false
        = Except.ok ([[1], [2, 3]].map (padRow true (collateWidth [[1], [2, 3]]) 9)) ∧
      ([[1], [2, 3]] : List (List Int)).map (padRow true (collateWidth [[1], [2, 3]]) 9)
        = [[9, 1], [2, 3]] :=
  ⟨by decide,
    (claim_C7_collate_tokens_round_trip [[1], [2, 3]] 9 Option.none true (by decide)).1,
    by decide⟩

end CollateTheorems

section SwitchoutTheorems

/-- Double lookup into a list of rows: the entry at row `i`, column `j`. -/
def get2 {α : Type} (xss : List (List α)) (i j : Nat) : Option α :=
  match xss[i]? with
  | Option.none => Option.none
  | Option.some r => r[j]?

/-- A pad/eos/bos position has corruption probability masked to zero, so
its `corrupt_pos` entry is `false` for every draw outcome. -/
theorem corruptPosRow_masked (d : DictModel) (len w : Nat) (b : Nat → Bool) :
    ∀ (row : List Int) (j0 j : Nat) (t : Int),
      row[j]? = Option.some t → sampleMaskAt d t = true →
        (corruptPosRow d len w b j0 row)[j]? = Option.some false := by
  intro row
  induction row with
  | nil => intro j0 j t ht; cases ht
  | cons x xs ih =>
    intro j0 j t ht hm
    cases j with
    | zero =>
      simp only [List.getElem?_cons_zero, Option.some.injEq] at ht
      subst ht
      simp [corruptPosRow, hm]
    | succ j =>
      simp only [List.getElem?_cons_succ] at ht
      simpa [corruptPosRow] using ih (j0 + 1) j t ht hm

/-- Row-level lifting of `corruptPosRow_masked`. -/
theorem corruptPosRows_masked (d : DictModel) (lengths numWords : Nat → Nat)
    (bern : Nat → Nat → Bool) :
    ∀ (tokens : List (List Int)) (i0 i j : Nat) (t : Int),
      get2 tokens i j = Option.some t → sampleMaskAt d t = true →
        get2 (corruptPosRows d lengths numWords bern i0 tokens) i j
          = Option.some false := by
  intro tokens
  induction tokens with
  | nil => intro i0 i j t ht; cases ht
  | cons row rest ih =>
    intro i0 i j t ht hm
    cases i with
    | zero =>
      simp only [get2, List.getElem?_cons_zero] at ht
      simp only [corruptPosRows, get2, List.getElem?_cons_zero]
      exact corruptPosRow_masked d (lengths i0) (numWords i0) (bern i0) row 0 j t ht hm
    | succ i =>
      simp only [get2, List.getElem?_cons_succ] at ht
      simp only [corruptPosRows, get2, List.getElem?_cons_succ]
      exact ih (i0 + 1) i j t ht hm

/-- The masked scatter writes 0 wherever the mask is `false`, for any value
buffer and any counter. -/
theorem scatterRow_false (vals : Nat → Int) :
    ∀ (bs : List Bool) (k j : Nat), bs[j]? = Option.some false →
      (scatterRow vals k bs).1[j]? = Option.some 0 := by
  intro bs
  induction bs with
  | nil => intro k j h; cases h
  | cons b rest ih =>
    intro k j h
    cases j with
    | zero =>
      simp only [List.getElem?_cons_zero, Option.some.injEq] at h
      subst h
      simp [scatterRow]
    | succ j =>
      simp only [List.getElem?_cons_succ] at h
      cases b with
      | true => simpa [scatterRow] using ih (k + 1) j h
      | false => simpa [scatterRow] using ih k j h

/-- Row-level lifting of `scatterRow_false`. -/
theorem scatterRows_false (vals : Nat → Int) :
    ∀ (rows : List (List Bool)) (k i j : Nat), get2 rows i j = Option.some false →
      get2 (scatterRows vals k rows).1 i j = Option.some 0 := by
  intro rows
  induction rows with
  | nil => intro k i j h; cases h
  | cons r rest ih =>
    intro k i j h
    cases i with
    | zero =>
      simp only [get2, List.getElem?_cons_zero] at h
      simp only [scatterRows, get2, List.getElem?_cons_zero]
      exact scatterRow_false vals r k j h
    | succ i =>
      simp only [get2, List.getElem?_cons_succ] at h
      simp only [scatterRows, get2, List.getElem?_cons_succ]
      exact ih (scatterRow vals k r).2 i j h

/-- Positionwise value of the final write of `switchout`. -/
theorem switchoutWriteRow_get (d : DictModel) :
    ∀ (ts cs : List Int) (j : Nat) (tv cv : Int),
      ts[j]? = Option.some tv → cs[j]? = Option.some cv →
        (switchoutWriteRow d ts cs)[j]?
          = Option.some (if tv == d.padIdx then d.padIdx
                         else (tv + cv).emod (d.size : Int)) := by
  intro ts
  induction ts with
  | nil => intro cs j tv cv ht; cases ht
  | cons t ts ih =>
    intro cs j tv cv ht hc
    cases cs with
    | nil => cases hc
    | cons c cs =>
      cases j with
      | zero =>
        simp only [List.getElem?_cons_zero, Option.some.injEq] at ht hc
        subst ht; subst hc
        simp [switchoutWriteRow]
      | succ j =>
        simp only [List.getElem?_cons_succ] at ht hc
        simpa [switchoutWriteRow] using ih cs j tv cv ht hc

/-- Row-level lifting of `switchoutWriteRow_get`. -/
theorem switchoutWriteRows_get (d : DictModel) :
    ∀ (tokens corrupts : List (List Int)) (i j : Nat) (tv cv : Int),
      get2 tokens i j = Option.some tv → get2 corrupts i j = Option.some cv →
        get2 (switchoutWriteRows d tokens corrupts) i j
          = Option.some (if tv == d.padIdx then d.padIdx
                         else (tv + cv).emod (d.size : Int)) := by
  intro tokens
  induction tokens with
  | nil => intro corrupts i j tv cv ht; cases ht
  | cons trow trest ih =>
    intro corrupts i j tv cv ht hc
    cases corrupts with
    | nil => cases hc
    | cons crow crest =>
      cases i with
      | zero =>
        simp only [get2, List.getElem?_cons_zero] at ht hc
        simp only [switchoutWriteRows, get2, List.getElem?_cons_zero]
        exact switchoutWriteRow_get d trow crow j tv cv ht hc
      | succ i =>
        simp only [get2, List.getElem?_cons_succ] at ht hc
        simp only [switchoutWriteRows, get2, List.getElem?_cons_succ]
        exact ih crest i j tv cv ht hc

/-- Claim C5: for every input batch, length vector, dictionary, and every
outcome of the internal random draws (the categorical draw, the bernoulli
draws and the value buffer are universally quantified), `switchout` equals
the input at every position holding a pad, eos or bos id — those positions
are never corrupted.  The dictionary ids are assumed in vocabulary range,
as `remainder_(len(dic))` fixes exactly the ids in `[0, len(dic))`. -/
theorem claim_C5_switchout_preserves_special (tokens : List (List Int))
    (lengths numWords : Nat → Nat) (bern : Nat → Nat → Bool) (corruptVal : Nat → Int)
    (d : DictModel) (i j : Nat) (t : Int)
    (heos0 : 0 ≤ d.eosIdx) (heos1 : d.eosIdx < (d.size : Int))
    (hbos0 : 0 ≤ d.bosIdx) (hbos1 : d.bosIdx < (d.size : Int))
    (ht : get2 tokens i j = Option.some t) (hm : sampleMaskAt d t = true) :
    get2 (switchout tokens lengths d numWords bern corruptVal) i j = Option.some t := by
  rw [switchout]
  by_cases h0 : countMask (corruptPosRows d lengths numWords bern 0 tokens) = 0
  · rw [if_pos h0]; exact ht
  · rw [if_neg h0]
    have hc := corruptPosRows_masked d lengths numWords bern tokens 0 i j t ht hm
    have hs := scatterRows_false corruptVal
      (corruptPosRows d lengths numWords bern 0 tokens) 0 i j hc
    have hw := switchoutWriteRows_get d tokens
      (scatterRows corruptVal 0 (corruptPosRows d lengths numWords bern 0 tokens)).1
      i j t 0 ht hs
    rw [hw]
    congr 1
    by_cases hpad : t = d.padIdx
    · simp [hpad]
    · have hmask : t = d.eosIdx ∨ t = d.bosIdx := by
        simp only [sampleMaskAt, Bool.or_eq_true, beq_iff_eq] at hm
        rcases hm with (h | h) | h
        · exact absurd h hpad
        · exact Or.inl h
        · exact Or.inr h
      have hrange : 0 ≤ t ∧ t < (d.size : Int) := by
        rcases hmask with rfl | rfl
        · exact ⟨heos0, heos1⟩
        · exact ⟨hbos0, hbos1⟩
      rw [if_neg (by simp [hpad])]
      rw [Int.add_zero]
      exact Int.emod_eq_of_lt hrange.1 hrange.2

/-- Witness for C5: a pad at position (0,2) and an eos at position (0,1)
survive a draw that corrupts position (0,0) with buffer value 3. -/
theorem claim_C5_witness :
    (0 : Int) ≤ 2 ∧ (2 : Int) < 10 ∧ (0 : Int) ≤ 0 ∧ (0 : Int) < 10 ∧
      get2 [[5, 2, 1]] 0 1 = Option.some 2 ∧
      sampleMaskAt ⟨1, 2, 0, 10⟩ 2 = true ∧
      get2 (switchout [[5, 2, 1]] (fun _ => 2) ⟨1, 2, 0, 10⟩ (fun _ => 1)
        (fun _ _ => true) (fun _ => 3)) 0 1 = Option.some 2 :=
  ⟨by decide, by decide, by decide, by decide, by decide, by decide,
    claim_C5_switchout_preserves_special [[5, 2, 1]] (fun _ => 2) (fun _ => 1)
      (fun _ _ => true) (fun _ => 3) ⟨1, 2, 0, 10⟩ 0 1 2
      (by decide) (by decide) (by decide) (by decide) (by decide) (by decide)⟩

/-- Claim C6 evaluated at the failing input: on the batch `[[5, 2]]`
(pad 1, eos 2, bos 0, vocabulary size 10, row length 2) with a draw that
selects exactly position (0,0) for corruption, the `corrupt_val` buffer is
allocated but never filled, so the "replacement" is
`(original + buffer) mod len(dic)`: buffer content 0 (a freshly zeroed
allocation) leaves the selected position at its original value 5 — no
random replacement id is ever sampled — while buffer content 3 yields
`(5+3) mod 10 = 8`; the eos position stays untouched in both runs. -/
theorem claim_C6_uninitialized_corrupt_val :
    corruptPosRows ⟨1, 2, 0, 10⟩ (fun _ => 2) (fun _ => 1) (fun _ _ => true) 0 [[5, 2]]
        = [[true, false]] ∧
      switchout [[5, 2]] (fun _ => 2) ⟨1, 2, 0, 10⟩ (fun _ => 1) (fun _ _ => true)
        (fun _ => 0) = [[5, 2]] ∧
      switchout [[5, 2]] (fun _ => 2) ⟨1, 2, 0, 10⟩ (fun _ => 1) (fun _ _ => true)
        (fun _ => 3) = [[8, 2]] :=
  ⟨by decide, by decide, by decide⟩

end SwitchoutTheorems

end MultiDDS
